import Mathlib

/-!
Verification of the Swiftly conversational backend
(`python_scripts/app/services` and `python_scripts/app/api`).

The Python services are shallowly embedded as pure Lean functions:
* `SimpleRAGService` (knowledge store / retrieval engine) becomes functions
  over a `List Document`;
* `ConversationService` (session store) becomes explicit state passing over a
  `ConvState` record, with wall-clock reads (`datetime.now()`) passed in as
  explicit `Nat` clock arguments;
* `GeminiService.analyze_task_intent` becomes a function of the abstract
  outcome of the external model call (generation failure, JSON parse failure,
  or a parsed JSON value).
-/

namespace Swiftly

/-! ## Python string primitives -/

/-- Python `str.lower()` restricted to ASCII case folding. -/
def pyLower (s : String) : String :=
  String.mk (s.toList.map Char.toLower)

/-- Accumulator version of whitespace splitting: `acc` holds the (reversed)
characters of the word currently being read. -/
def wordsCore : List Char → List Char → List String
  | [], acc => if acc = [] then [] else [String.mk acc.reverse]
  | c :: cs, acc =>
    if c.isWhitespace then
      if acc = [] then wordsCore cs []
      else String.mk acc.reverse :: wordsCore cs []
    else wordsCore cs (c :: acc)

/-- Python `str.split()` with no separator argument: split on whitespace runs,
dropping empty fragments. -/
def pyWords (s : String) : List String :=
  wordsCore s.toList []

/-- `listStartsWith n h` is Python `h.startswith(n)` on character lists. -/
def listStartsWith : List Char → List Char → Bool
  | [], _ => true
  | _ :: _, [] => false
  | a :: as, b :: bs => a = b && listStartsWith as bs

/-- `isSubstring n h` is Python `n in h` on character lists. -/
def isSubstring (n : List Char) : List Char → Bool
  | [] => listStartsWith n []
  | c :: hs => listStartsWith n (c :: hs) || isSubstring n hs

/-- Python `not s.strip()`: `s` is empty or consists of whitespace only. -/
def pyBlank (s : String) : Bool :=
  s.toList.all Char.isWhitespace

/-- Python `sep.join(l)`. -/
def joinSep (sep : String) : List String → String
  | [] => ""
  | [a] => a
  | a :: b :: rest => a ++ sep ++ joinSep sep (b :: rest)

/-- Python `" ".join(l)`. -/
def joinSpace (l : List String) : String :=
  joinSep " " l

/-! ## Knowledge Store (`rag_service.py`)

`Document` carries the fields of `rag_service.Document` that the retrieval
algorithms read: `content` and `metadata`.  Metadata values appear in the
code only through `str(v)`, so they are embedded as strings; `created_at`
is the construction-time clock value used by `_generate_id`. -/

structure Document where
  content : String
  metadata : List (String × String)
  deriving DecidableEq, Repr

/-- The relevance score computed inside `SimpleRAGService.search` for one
document: word-set overlap ratio, plus `0.3` for a full-phrase substring
match, plus `0.1` per query word occurring among the metadata values
(the latter only evaluated when the metadata dict is non-empty, mirroring
`if doc.metadata:`).  Python floats are idealised as rationals. -/
def relevance_score (query : String) (doc : Document) : ℚ :=
  let query_lower := pyLower query
  let query_words := (pyWords query_lower).dedup
  let content_lower := pyLower doc.content
  let content_words := pyWords content_lower
  let base : ℚ :=
    if query_words = [] then 0
    else ((query_words.filter (fun w => w ∈ content_words)).length : ℚ) /
         (query_words.length : ℚ)
  let phrase : ℚ :=
    if isSubstring query_lower.toList content_lower.toList then 3/10 else 0
  let metaBoost : ℚ :=
    if doc.metadata = [] then 0
    else
      let metadata_text := pyLower (joinSpace (doc.metadata.map Prod.snd))
      let metadata_words := pyWords metadata_text
      ((query_words.filter (fun w => w ∈ metadata_words)).length : ℚ) * (1/10)
  base + phrase + metaBoost

/-- The candidate list built by the `for doc in self.documents` loop of
`search`: every document whose score reaches `min_score`, paired with its
score, in document-encounter order. -/
def scoredCandidates (query : String) (min_score : ℚ) (docs : List Document) :
    List (Document × ℚ) :=
  (docs.map (fun d => (d, relevance_score query d))).filter
    (fun p => min_score ≤ p.2)

/-- One step of the stable descending sort performed by
`results.sort(key=lambda x: x[1], reverse=True)`: insert `x` before the first
element whose score is not above `x`'s. -/
def insertDesc (x : Document × ℚ) : List (Document × ℚ) → List (Document × ℚ)
  | [] => [x]
  | y :: ys => if x.2 < y.2 then y :: insertDesc x ys else x :: y :: ys

/-- Stable sort, descending by score (Python `list.sort` with `reverse=True`
is stable: equal keys keep their original relative order). -/
def sortDesc : List (Document × ℚ) → List (Document × ℚ)
  | [] => []
  | x :: xs => insertDesc x (sortDesc xs)

/-- `SimpleRAGService.search(query, limit, min_score)`. -/
def search (query : String) (limit : Nat) (min_score : ℚ)
    (docs : List Document) : List (Document × ℚ) :=
  if pyBlank query then []
  else (sortDesc (scoredCandidates query min_score docs)).take limit

/-- The bulleted line rendered for one retrieved document.  The literal in
the source (`rag_service.py` line 229) is the four-character sequence
U+00E2 U+20AC U+00A2 plus a space — the UTF-8 bytes of the bullet U+2022
mis-decoded as Latin-1 — so each line is `doc.content` with that 4-character
prefix. -/
def bulletLine (doc : Document) : String :=
  "â€¢ " ++ doc.content

/-- The accumulation loop of `get_context_for_query`: keep appending lines
while the running length stays within the budget; `break` (stop entirely) at
the first line that would exceed it. -/
def gatherParts (maxLen : Nat) : List (Document × ℚ) → Nat → List String
  | [], _ => []
  | p :: ps, cur =>
    let line := bulletLine p.1
    if maxLen < cur + line.length then []
    else line :: gatherParts maxLen ps (cur + line.length)

/-- `SimpleRAGService.get_context_for_query(query, max_context_length)`:
top-3 search (default `min_score = 0.1`), budgeted accumulation, then header
and trailing blank line around the joined lines. -/
def get_context_for_query (query : String) (max_context_length : Nat)
    (docs : List Document) : String :=
  let relevant_docs := search query 3 (1/10) docs
  if relevant_docs = [] then ""
  else
    let context_parts := gatherParts max_context_length relevant_docs 0
    if context_parts = [] then ""
    else "RELEVANT CONTEXT:\n" ++ joinSep "\n" context_parts ++ "\n\n"

/-- Modelled from the claim's formula for the relevance score: intersection
of the lowercased whitespace-split query word set with the content word set,
divided by the query word-set size (0 when the query has no words), plus 0.3
on a full-phrase substring match, plus 0.1 per query word among the
space-joined lowercased metadata values — with no special case for empty
metadata.  To be compared against `relevance_score`. -/
def claimScore (query : String) (doc : Document) : ℚ :=
  let query_words := (pyWords (pyLower query)).dedup
  let content_words := pyWords (pyLower doc.content)
  let metadata_words := pyWords (pyLower (joinSpace (doc.metadata.map Prod.snd)))
  (if query_words = [] then 0
   else ((query_words.filter (fun w => w ∈ content_words)).length : ℚ) /
        (query_words.length : ℚ)) +
  (if isSubstring (pyLower query).toList (pyLower doc.content).toList
   then 3/10 else 0) +
  ((query_words.filter (fun w => w ∈ metadata_words)).length : ℚ) * (1/10)

/-- `Document._generate_id`, with the MD5 digest prefix abstracted as a
function `h` of the content (the hash itself is library code): the id is
`f"doc_{h(content)}_{int(created_at.timestamp())}"`. -/
def generate_id (h : String → String) (content : String) (created_at : Nat) :
    String :=
  "doc_" ++ h content ++ "_" ++ toString created_at

/-- `SimpleRAGService.add_document(content, metadata)`: unconditionally
construct a `Document`, append it to the store, and return its id.  `now` is
the construction-time clock read. -/
def add_document (h : String → String) (docs : List Document)
    (content : String) (metadata : List (String × String)) (now : Nat) :
    String × List Document :=
  let doc : Document := ⟨content, metadata⟩
  (generate_id h content now, docs ++ [doc])

/-! ### Knowledge-base initialization (`__init__` / `_load_knowledge_base` /
`_initialize_default_knowledge`) -/

/-- The six seed documents installed by `_initialize_default_knowledge`. -/
def default_documents : List Document :=
  [⟨"Swiftly is an AI-powered admin life concierge application designed to simplify scheduling, task management, reminders, and productivity optimization through intelligent automation.",
    [("type", "product_overview"), ("category", "general")]⟩,
   ⟨"Swiftly features include: AI-powered task creation from natural language, multiple task views (Kanban, Calendar, List, Gantt), smart scheduling optimization, team collaboration, and integrations with third-party services.",
    [("type", "features"), ("category", "functionality")]⟩,
   ⟨"The Swiftly AI assistant can help with task management, scheduling, productivity insights, and answering questions about your workflow and productivity patterns.",
    [("type", "ai_capabilities"), ("category", "assistant")]⟩,
   ⟨"Task priorities in Swiftly are categorized as: Low (nice to have, flexible deadlines), Medium (important but not urgent), High (urgent and important, immediate attention required).",
    [("type", "task_priorities"), ("category", "tasks")]⟩,
   ⟨"Swiftly supports team collaboration through shared task boards, real-time updates, task assignment, and team calendar views. Team members can collaborate on projects and track progress together.",
    [("type", "collaboration"), ("category", "teams")]⟩,
   ⟨"The calendar view in Swiftly allows you to see tasks and events in month, week, and day views. You can drag and drop to reschedule tasks, and the calendar integrates with your existing calendar systems.",
    [("type", "calendar"), ("category", "scheduling")]⟩]

/-- One parsed record of the knowledge-base file's `documents` array.
`content = none` models a record without a `"content"` key, on which
`doc_data["content"]` raises `KeyError`; `metadata` already carries the
`doc_data.get("metadata", {})` default. -/
structure DocData where
  content : Option String
  metadata : List (String × String)
  deriving DecidableEq, Repr

/-- The `for doc_data in data.get("documents", [])` loop: append documents in
order; a record without content aborts the loop (second component `false`)
with the documents appended so far. -/
def processDocs : List DocData → List Document → List Document × Bool
  | [], acc => (acc, true)
  | d :: ds, acc =>
    match d.content with
    | some c => processDocs ds (acc ++ [⟨c, d.metadata⟩])
    | none => (acc, false)

/-- `_load_knowledge_base` starting from an empty store, as a function of the
outcome of `open`/`json.load` (`.error` = the read or parse raised): on any
exception the handler appends the seed documents after whatever was already
loaded. -/
def load_knowledge_base (parsed : Except Unit (List DocData)) : List Document :=
  match parsed with
  | .error _ => default_documents
  | .ok ds =>
    match processDocs ds [] with
    | (docs, true) => docs
    | (docs, false) => docs ++ default_documents

/-- `SimpleRAGService.__init__`: the document list right after construction.
`fs p = none` models `os.path.exists(p) = False`; note that an empty-string
path is falsy in `if self.knowledge_base_path and ...`. -/
def rag_init (path : Option String)
    (fs : String → Option (Except Unit (List DocData))) : List Document :=
  match path with
  | none => default_documents
  | some p =>
    if p = "" then default_documents
    else
      match fs p with
      | none => default_documents
      | some parsed => load_knowledge_base parsed

/-! ## Session Store (`conversation_service.py`)

Python dicts with string keys become association lists with unique keys;
`datetime.now()` reads become explicit `Nat` clock arguments (all the reads
inside one service call are merged into one `now`, as they differ only by
microseconds). -/

/-- First-match lookup in an association list (Python `d[k]` / `k in d`). -/
def assocGet {α : Type} : List (String × α) → String → Option α
  | [], _ => none
  | (k', v) :: rest, k => if k' = k then some v else assocGet rest k

/-- Update-or-append (Python `d[k] = v`). -/
def assocSet {α : Type} : List (String × α) → String → α → List (String × α)
  | [], k, v => [(k, v)]
  | (k', v') :: rest, k, v =>
    if k' = k then (k, v) :: rest else (k', v') :: assocSet rest k v

/-- Key removal (Python `del d[k]`; dict keys are unique, so removing every
occurrence agrees with it on all reachable states). -/
def assocDel {α : Type} (l : List (String × α)) (k : String) :
    List (String × α) :=
  l.filter (fun kv => kv.1 ≠ k)

/-- `schemas.ConversationMessage` (role validated against
`^(user|assistant)$` by pydantic at construction). -/
structure ConversationMessage where
  role : String
  content : String
  timestamp : Nat
  deriving DecidableEq, Repr

/-- The per-session entry of `ConversationService.session_metadata`. -/
structure SessionMeta where
  created_at : Nat
  last_activity : Nat
  message_count : Nat
  deriving DecidableEq, Repr

/-- The mutable state of a `ConversationService` instance. -/
structure ConvState where
  conversations : List (String × List ConversationMessage)
  session_metadata : List (String × SessionMeta)
  deriving DecidableEq, Repr

def emptyConvState : ConvState := ⟨[], []⟩

/-- The pydantic `role` pattern of `ConversationMessage`. -/
def validRole (role : String) : Bool :=
  role = "user" || role = "assistant"

/-- The `if session_id not in self.conversations:` block of `add_message`. -/
def ensureSession (st : ConvState) (session_id : String) (now : Nat) :
    ConvState :=
  match assocGet st.conversations session_id with
  | some _ => st
  | none =>
    ⟨assocSet st.conversations session_id [],
     assocSet st.session_metadata session_id ⟨now, now, 0⟩⟩

/-- `ConversationService.add_message`.  The session is created first; then
`ConversationMessage(...)` validates the role — on an invalid role the
pydantic exception propagates, leaving the (possibly freshly created) session
untouched; otherwise the message is appended and the metadata updated. -/
def add_message (st : ConvState) (session_id role content : String)
    (timestamp : Option Nat) (now : Nat) : ConvState :=
  let st1 := ensureSession st session_id now
  if validRole role then
    let message : ConversationMessage := ⟨role, content, timestamp.getD now⟩
    let messages := (assocGet st1.conversations session_id).getD []
    let meta := (assocGet st1.session_metadata session_id).getD ⟨now, now, 0⟩
    ⟨assocSet st1.conversations session_id (messages ++ [message]),
     assocSet st1.session_metadata session_id
       { meta with last_activity := now,
                   message_count := meta.message_count + 1 }⟩
  else st1

/-- `ConversationService.get_conversation_history`.  Note `if limit:` is a
Python truthiness test: `limit = 0` falls through to the full history. -/
def get_conversation_history (st : ConvState) (session_id : String)
    (limit : Option Nat) : List ConversationMessage :=
  match assocGet st.conversations session_id with
  | none => []
  | some messages =>
    match limit with
    | some l => if l ≠ 0 then messages.drop (messages.length - l) else messages
    | none => messages

/-- One record of `get_gemini_history`'s result. -/
structure GeminiTurn where
  role : String
  parts : List String
  deriving DecidableEq, Repr

/-- `ConversationService.get_gemini_history`. -/
def get_gemini_history (st : ConvState) (session_id : String) :
    List GeminiTurn :=
  (get_conversation_history st session_id none).map
    (fun m => ⟨m.role, [m.content]⟩)

/-- `ConversationService.clear_session`: returns the success flag and the
state. -/
def clear_session (st : ConvState) (session_id : String) : Bool × ConvState :=
  match assocGet st.conversations session_id with
  | some _ =>
    (true, ⟨assocDel st.conversations session_id,
            assocDel st.session_metadata session_id⟩)
  | none => (false, st)

/-! ### Operation sequences over the Session Store -/

/-- The Session Store operations quantified over by the invariant claims. -/
inductive ConvOp where
  | add (session_id role content : String) (timestamp : Option Nat)
  | clear (session_id : String)
  deriving DecidableEq, Repr

def isAddOp : ConvOp → Bool
  | .add _ _ _ _ => true
  | .clear _ => false

/-- Execute one operation; the second component is the `datetime.now()`
value observed during it. -/
def applyOp (st : ConvState) : ConvOp × Nat → ConvState
  | (.add sid role content ts, now) => add_message st sid role content ts now
  | (.clear sid, _) => (clear_session st sid).2

def runOps (st : ConvState) : List (ConvOp × Nat) → ConvState
  | [] => st
  | o :: os => runOps (applyOp st o) os

/-- The stored history of a session (empty for an unknown session). -/
def historyD (st : ConvState) (sid : String) : List ConversationMessage :=
  (assocGet st.conversations sid).getD []

/-- The stored `message_count` of a session (0 for an unknown session). -/
def messageCountD (st : ConvState) (sid : String) : Nat :=
  ((assocGet st.session_metadata sid).map SessionMeta.message_count).getD 0

/-- The stored `last_activity` of a session (0 for an unknown session). -/
def lastActivityD (st : ConvState) (sid : String) : Nat :=
  ((assocGet st.session_metadata sid).map SessionMeta.last_activity).getD 0

/-- The effect one operation should have on one session's history, read off
the spec: a successful append to this session extends it by that one message,
a clear of this session empties it, everything else leaves it alone. -/
def stepHistory (h : List ConversationMessage) (sid : String) :
    ConvOp × Nat → List ConversationMessage
  | (.add s role content ts, now) =>
    if s = sid ∧ validRole role then h ++ [⟨role, content, ts.getD now⟩] else h
  | (.clear s, _) => if s = sid then [] else h

/-- The messages a session should hold after a sequence of operations:
exactly the appended messages, in append order, since the last clear. -/
def expectedHistory (ops : List (ConvOp × Nat)) (sid : String) :
    List ConversationMessage :=
  ops.foldl (fun h o => stepHistory h sid o) []

/-- The wall clock is non-decreasing along an operation sequence, starting
from lower bound `b`. -/
def sortedFrom : Nat → List (ConvOp × Nat) → Bool
  | _, [] => true
  | b, o :: os => decide (b ≤ o.2) && sortedFrom o.2 os

/-- The coupling invariant between the two dicts of the Session Store:
the stored `message_count` always mirrors the length of the stored message
list (and a session is present in one dict iff in the other). -/
def countInv (st : ConvState) : Prop :=
  ∀ sid, (assocGet st.session_metadata sid).map SessionMeta.message_count =
         (assocGet st.conversations sid).map List.length

/-- Every stored `last_activity` value is at most `b` (an upper bound by the
wall clock observed so far). -/
def ubLA (st : ConvState) (b : Nat) : Prop :=
  ∀ sid, lastActivityD st sid ≤ b

/-! ## `/ask` route handler (`gemini_routes.ask_gemini`) -/

/-- What one `/ask` invocation produced: an HTTP error status or a payload,
the Session Store state afterwards, and how many times the Completion
Gateway (`gemini.generate_response`) was invoked. -/
structure AskOutcome where
  result : Except Nat (String × String)
  state : ConvState
  gateway_calls : Nat
  deriving Repr

/-- The `/ask` handler body.  `fresh_session_id` is the value
`conversation.create_session_id()` would mint (note `request.session_id or
...`: an empty-string session id is falsy and also triggers a fresh id);
`gateway` is the Completion Gateway as a pure oracle from the user content
and the replayed history (`history[:-1]`) to the generated text. -/
def ask_gemini (st : ConvState) (content : String)
    (session_id : Option String) (fresh_session_id : String)
    (gateway : String → List GeminiTurn → String) (now : Nat) : AskOutcome :=
  if pyBlank content then ⟨.error 400, st, 0⟩
  else
    let sid :=
      match session_id with
      | some s => if s = "" then fresh_session_id else s
      | none => fresh_session_id
    let st1 := add_message st sid "user" content none now
    let history := get_gemini_history st1 sid
    let ai_response := gateway content history.dropLast
    let st2 := add_message st1 sid "assistant" ai_response none now
    ⟨.ok (ai_response, sid), st2, 1⟩

/-! ## Intent Extractor (`gemini_service.analyze_task_intent`)

The external call is embedded by its abstract outcome; elapsed wall-clock
time is the explicit argument `t`. -/

/-- A Python value as far as `json.loads` output and pydantic validation
observe it. -/
inductive PyVal where
  | pyNull
  | pyBool (b : Bool)
  | pyInt (n : Int)
  | pyStr (s : String)
  | pyList (xs : List PyVal)
  | pyDict (kvs : List (String × PyVal))

/-- Python `d.get(k, default)` on a parsed JSON object. -/
def pyGet (kvs : List (String × PyVal)) (k : String) (d : PyVal) : PyVal :=
  match assocGet kvs k with
  | some v => v
  | none => d

/-- `schemas.TaskIntentResponse` (processing time kept as a `Nat`). -/
structure TaskIntentResponse where
  has_task_intent : Bool
  task_name : Option String
  due_date : Option String
  priority : Option String
  needs_clarity : Bool
  processing_time : Nat
  deriving DecidableEq, Repr

/-- The neutral "no intent" result. -/
def neutralIntent (t : Nat) : TaskIntentResponse :=
  ⟨false, none, none, none, false, t⟩

/-- Pydantic validation of a `bool` field. -/
def pyToBool : PyVal → Except Unit Bool
  | .pyBool b => .ok b
  | _ => .error ()

/-- Pydantic validation of an `Optional[str]` field. -/
def pyToOptStr : PyVal → Except Unit (Option String)
  | .pyNull => .ok none
  | .pyStr s => .ok (some s)
  | _ => .error ()

/-- The pydantic pattern `^(low|medium|high)$` on the optional `priority`
field. -/
def validPriority : Option String → Bool
  | none => true
  | some p => p = "low" || p = "medium" || p = "high"

/-- Construction of `TaskIntentResponse(...)`, including the pydantic field
validation declared in `schemas.py` (every field must have its declared
type, and `priority` must match `^(low|medium|high)$` when present);
`.error` models the raised `ValidationError`. -/
def mkTaskIntentResponse (hti tn dd pr nc : PyVal) (t : Nat) :
    Except Unit TaskIntentResponse :=
  match pyToBool hti, pyToOptStr tn, pyToOptStr dd, pyToOptStr pr,
        pyToBool nc with
  | .ok h, .ok tn', .ok dd', .ok pr', .ok nc' =>
    if validPriority pr' then .ok ⟨h, tn', dd', pr', nc', t⟩ else .error ()
  | _, _, _, _, _ => .error ()

/-- The abstract outcome of the external model call inside
`analyze_task_intent`: generation raised, `json.loads` raised, or a parsed
JSON value. -/
inductive GenOutcome where
  | genFail
  | parseFail
  | parsed (j : PyVal)

/-- The body of the outer `try` of `analyze_task_intent`: `.error` is any
exception reaching the outer handler.  A parsed non-object makes
`intent_data.get` raise `AttributeError` (not caught by the inner
`except (json.JSONDecodeError, KeyError)`), and a failed
`TaskIntentResponse` validation likewise escapes the inner handler. -/
def analyzeAttempt (o : GenOutcome) (t : Nat) :
    Except Unit TaskIntentResponse :=
  match o with
  | .genFail => .error ()
  | .parseFail => .ok (neutralIntent t)
  | .parsed (.pyDict d) =>
    mkTaskIntentResponse
      (pyGet d "hasTaskIntent" (.pyBool false))
      (pyGet d "taskName" .pyNull)
      (pyGet d "dueDate" .pyNull)
      (pyGet d "priority" .pyNull)
      (pyGet d "needsClarity" (.pyBool false)) t
  | .parsed _ => .error ()

/-- `GeminiService.analyze_task_intent` (model handle initialized): the outer
`except Exception` converts every escaped exception into the neutral
result, so the call never raises past this boundary. -/
def analyze_task_intent (o : GenOutcome) (t : Nat) : TaskIntentResponse :=
  match analyzeAttempt o t with
  | .ok r => r
  | .error _ => neutralIntent t

/-! # Theorems -/

/-! ## Stable descending sort (`results.sort(key=..., reverse=True)`) -/

theorem mem_insertDesc {a x : Document × ℚ} :
    ∀ {l : List (Document × ℚ)}, a ∈ insertDesc x l ↔ a = x ∨ a ∈ l := by
  intro l
  induction l with
  | nil => simp [insertDesc]
  | cons y ys ih =>
    by_cases h : x.2 < y.2
    · simp only [insertDesc, if_pos h, List.mem_cons, ih]
      tauto
    · simp only [insertDesc, if_neg h, List.mem_cons]

theorem mem_sortDesc {a : Document × ℚ} :
    ∀ {l : List (Document × ℚ)}, a ∈ sortDesc l ↔ a ∈ l := by
  intro l
  induction l with
  | nil => simp [sortDesc]
  | cons x xs ih =>
    simp only [sortDesc, mem_insertDesc, ih, List.mem_cons]

theorem pairwise_insertDesc (x : Document × ℚ) (l : List (Document × ℚ))
    (hl : l.Pairwise (fun a b => b.2 ≤ a.2)) :
    (insertDesc x l).Pairwise (fun a b => b.2 ≤ a.2) := by
  induction l with
  | nil => simp [insertDesc]
  | cons y ys ih =>
    rw [List.pairwise_cons] at hl
    obtain ⟨hy, hys⟩ := hl
    by_cases h : x.2 < y.2
    · rw [insertDesc, if_pos h, List.pairwise_cons]
      refine ⟨?_, ih hys⟩
      intro a ha
      rcases mem_insertDesc.mp ha with rfl | ha'
      · exact le_of_lt h
      · exact hy a ha'
    · rw [insertDesc, if_neg h, List.pairwise_cons]
      refine ⟨?_, List.pairwise_cons.mpr ⟨hy, hys⟩⟩
      intro a ha
      rcases List.mem_cons.mp ha with rfl | ha'
      · exact not_lt.mp h
      · exact le_trans (hy a ha') (not_lt.mp h)

theorem pairwise_sortDesc (l : List (Document × ℚ)) :
    (sortDesc l).Pairwise (fun a b => b.2 ≤ a.2) := by
  induction l with
  | nil => simp [sortDesc]
  | cons x xs ih => exact pairwise_insertDesc x _ ih

theorem filter_insertDesc (s : ℚ) (x : Document × ℚ) :
    ∀ l : List (Document × ℚ),
      (insertDesc x l).filter (fun p => p.2 = s) =
        if x.2 = s then x :: l.filter (fun p => p.2 = s)
        else l.filter (fun p => p.2 = s) := by
  intro l
  induction l with
  | nil => by_cases h : x.2 = s <;> simp [insertDesc, h]
  | cons y ys ih =>
    by_cases hxy : x.2 < y.2
    · rw [insertDesc, if_pos hxy]
      by_cases hy : y.2 = s
      · have hx : ¬ x.2 = s := by rw [← hy] at *; exact ne_of_lt hxy
        simp [List.filter_cons, hy, hx, ih]
      · simp [List.filter_cons, hy, ih]
    · rw [insertDesc, if_neg hxy]
      by_cases hx : x.2 = s <;> simp [List.filter_cons, hx]

theorem filter_sortDesc (s : ℚ) :
    ∀ l : List (Document × ℚ),
      (sortDesc l).filter (fun p => p.2 = s) = l.filter (fun p => p.2 = s) := by
  intro l
  induction l with
  | nil => rfl
  | cons x xs ih =>
    rw [sortDesc, filter_insertDesc]
    by_cases hx : x.2 = s <;> simp [List.filter_cons, hx, ih]

theorem search_length_le (q : String) (limit : Nat) (m : ℚ)
    (docs : List Document) : (search q limit m docs).length ≤ limit := by
  by_cases hb : pyBlank q = true
  · simp [search, hb]
  · simp only [search, hb, if_neg, Bool.false_eq_true, if_false,
      List.length_take]
    exact min_le_left _ _

theorem scoredCandidates_min {q : String} {m : ℚ} {docs : List Document}
    {p : Document × ℚ} (h : p ∈ scoredCandidates q m docs) : m ≤ p.2 := by
  have := List.of_mem_filter h
  exact of_decide_eq_true this

theorem mem_scoredCandidates_iff (q : String) (m : ℚ) (docs : List Document)
    (d : Document) (hd : d ∈ docs) :
    (d, relevance_score q d) ∈ scoredCandidates q m docs ↔
      m ≤ relevance_score q d := by
  constructor
  · intro h
    exact scoredCandidates_min h
  · intro h
    refine List.mem_filter.mpr ⟨?_, decide_eq_true h⟩
    exact List.mem_map.mpr ⟨d, hd, rfl⟩

/-! ## C2 and C3: the search contract and the scoring formula -/

/-- C2: for every corpus and query, `search` returns `[]` on a blank query
without error; with `limit = k` and `min_score = m` it returns at most `k`
results, every returned score is at least `m`, results are sorted descending
by score, and results with equal scores keep document-encounter order (the
equal-score slice of the output is a sublist of the equal-score slice of the
encounter-ordered candidate list). -/
theorem search_contract (q : String) (limit : Nat) (m : ℚ)
    (docs : List Document) :
    (pyBlank q = true → search q limit m docs = []) ∧
    (search q limit m docs).length ≤ limit ∧
    (∀ p ∈ search q limit m docs, m ≤ p.2) ∧
    (search q limit m docs).Pairwise (fun a b => b.2 ≤ a.2) ∧
    (∀ s : ℚ, ((search q limit m docs).filter (fun p => p.2 = s)).Sublist
      ((scoredCandidates q m docs).filter (fun p => p.2 = s))) := by
  by_cases hb : pyBlank q = true
  · refine ⟨fun _ => by simp [search, hb], ?_, ?_, ?_, ?_⟩ <;>
      simp [search, hb, List.nil_sublist]
  · have hs : search q limit m docs =
        (sortDesc (scoredCandidates q m docs)).take limit := by
      simp [search, hb]
    refine ⟨fun h => absurd h hb, search_length_le q limit m docs, ?_, ?_, ?_⟩
    · intro p hp
      rw [hs] at hp
      exact scoredCandidates_min (mem_sortDesc.mp (List.mem_of_mem_take hp))
    · rw [hs]
      exact List.Pairwise.sublist (List.take_sublist _ _) (pairwise_sortDesc _)
    · intro s
      rw [hs]
      have h1 : List.Sublist
          (((sortDesc (scoredCandidates q m docs)).take limit).filter
            (fun p => p.2 = s))
          ((sortDesc (scoredCandidates q m docs)).filter (fun p => p.2 = s)) :=
        (List.take_sublist _ _).filter _
      rwa [filter_sortDesc s] at h1

/-- Witness for C2 at concrete inputs: a blank query returns `[]`, and a
two-document corpus with `limit = 1` returns at most one result. -/
theorem search_contract_witness :
    search " " 5 (1/10) [⟨"a", []⟩] = [] ∧
    (search "a" 1 (1/10) [⟨"a", []⟩, ⟨"a b", []⟩]).length ≤ 1 :=
  ⟨(search_contract " " 5 (1/10) [⟨"a", []⟩]).1 (by decide),
   (search_contract "a" 1 (1/10) [⟨"a", []⟩, ⟨"a b", []⟩]).2.1⟩

theorem relevance_score_eq_claimScore (q : String) (d : Document) :
    relevance_score q d = claimScore q d := by
  unfold relevance_score claimScore
  cases hm : d.metadata with
  | nil => simp [hm, joinSpace, joinSep, pyLower, pyWords, wordsCore]
  | cons a l => simp [hm]

/-! Concrete score and search evaluations shared by the counterexamples and
witnesses.  Kernel reduction is kept away from `ℚ` arithmetic (whose
normalization does not reduce definitionally): each evaluation first exposes
the score as a symbolic rational expression by `rfl`, then finishes with
`norm_num`. -/

theorem score_query_a_doc_a : relevance_score "a" ⟨"a", []⟩ = 13/10 := by
  have h : relevance_score "a" ⟨"a", []⟩ = ((1:ℕ):ℚ)/((1:ℕ):ℚ) + 3/10 + 0 :=
    rfl
  rw [h]; norm_num

theorem score_query_a_doc_ab : relevance_score "a" ⟨"a b", []⟩ = 13/10 := by
  have h : relevance_score "a" ⟨"a b", []⟩ = ((1:ℕ):ℚ)/((1:ℕ):ℚ) + 3/10 + 0 :=
    rfl
  rw [h]; norm_num

theorem search_query_a_two_docs :
    search "a" 1 (1/10) [⟨"a", []⟩, ⟨"a b", []⟩] = [(⟨"a", []⟩, 13/10)] := by
  have hge : ((10:ℚ)⁻¹ ≤ 13/10) := by norm_num
  have hlt : ¬((13:ℚ)/10 < 13/10) := by norm_num
  simp [search, show pyBlank "a" = false from rfl, scoredCandidates,
        score_query_a_doc_a, score_query_a_doc_ab, List.filter_cons, hge,
        sortDesc, insertDesc, hlt]

theorem search_query_a_one_doc :
    search "a" 3 (1/10) [⟨"a", []⟩] = [(⟨"a", []⟩, 13/10)] := by
  have hge : ((10:ℚ)⁻¹ ≤ 13/10) := by norm_num
  simp [search, show pyBlank "a" = false from rfl, scoredCandidates,
        score_query_a_doc_a, List.filter_cons, hge, sortDesc, insertDesc]

/-- C3 counterexample: the claim's "the document is returned iff this final
score ≥ min_score" is false once `limit` truncates: with `limit = 1` the
document `"a b"` scores `13/10 ≥ 1/10` for query `"a"` but is not returned
(the equally-scored document `"a"` is encountered first and fills the single
result slot). -/
theorem search_membership_counterexample :
    (1 : ℚ)/10 ≤ relevance_score "a" ⟨"a b", []⟩ ∧
    (⟨"a b", []⟩, relevance_score "a" ⟨"a b", []⟩) ∉
      search "a" 1 (1/10) [⟨"a", []⟩, ⟨"a b", []⟩] := by
  refine ⟨by rw [score_query_a_doc_ab]; norm_num, ?_⟩
  rw [search_query_a_two_docs, score_query_a_doc_ab]
  intro hmem
  rw [List.mem_singleton] at hmem
  have hdoc : (⟨"a b", []⟩ : Document) = ⟨"a", []⟩ :=
    congrArg Prod.fst hmem
  exact absurd (congrArg Document.content hdoc) (by decide)

/-- C3 amended: the relevance score equals the claimed formula
(`claimScore`), and a document enters the candidate list built by the search
loop — before the truncation to `limit` — iff its final score reaches
`min_score`. -/
theorem relevance_score_spec (q : String) (d : Document) (m : ℚ)
    (docs : List Document) :
    relevance_score q d = claimScore q d ∧
    (d ∈ docs → ((d, relevance_score q d) ∈ scoredCandidates q m docs ↔
      m ≤ relevance_score q d)) :=
  ⟨relevance_score_eq_claimScore q d,
   fun hd => mem_scoredCandidates_iff q m docs d hd⟩

/-- Witness for C3 (amended) at a concrete input: the document `"a"` is in
the candidate list for query `"a"` with `min_score = 1/10`. -/
theorem relevance_score_spec_witness :
    ((⟨"a", []⟩ : Document), relevance_score "a" ⟨"a", []⟩) ∈
      scoredCandidates "a" (1/10) [⟨"a", []⟩] :=
  ((relevance_score_spec "a" ⟨"a", []⟩ (1/10) [⟨"a", []⟩]).2
    (by simp)).mpr (by rw [score_query_a_doc_a]; norm_num)

/-! ## C4: context assembly budget -/

theorem gatherParts_budget (maxLen : Nat) :
    ∀ (rel : List (Document × ℚ)) (cur : Nat),
      gatherParts maxLen rel cur = [] ∨
      cur + ((gatherParts maxLen rel cur).map String.length).sum ≤ maxLen := by
  intro rel
  induction rel with
  | nil => intro cur; left; rfl
  | cons p ps ih =>
    intro cur
    by_cases h : maxLen < cur + (bulletLine p.1).length
    · left; simp [gatherParts, h]
    · right
      simp only [gatherParts, if_neg h, List.map_cons, List.sum_cons]
      rcases ih (cur + (bulletLine p.1).length) with h0 | hle
      · rw [h0]
        simp only [List.map_nil, List.sum_nil]
        omega
      · omega

theorem gatherParts_sum_le (maxLen : Nat) (rel : List (Document × ℚ)) :
    ((gatherParts maxLen rel 0).map String.length).sum ≤ maxLen := by
  rcases gatherParts_budget maxLen rel 0 with h | h
  · rw [h]; exact Nat.zero_le _
  · omega

theorem gatherParts_length_le (maxLen : Nat) :
    ∀ (rel : List (Document × ℚ)) (cur : Nat),
      (gatherParts maxLen rel cur).length ≤ rel.length := by
  intro rel
  induction rel with
  | nil => intro cur; exact Nat.le_refl 0
  | cons p ps ih =>
    intro cur
    by_cases h : maxLen < cur + (bulletLine p.1).length
    · simp [gatherParts, h]
    · simp only [gatherParts, if_neg h, List.length_cons]
      exact Nat.succ_le_succ (ih _)

theorem length_joinSep (sep : String) :
    ∀ l : List String,
      (joinSep sep l).length ≤
        (l.map String.length).sum + sep.length * (l.length - 1) := by
  intro l
  induction l with
  | nil => simp [joinSep]
  | cons a rest ih =>
    cases rest with
    | nil => simp [joinSep]
    | cons b rest' =>
      rw [joinSep]
      simp only [String.length_append, List.map_cons, List.sum_cons,
        List.length_cons, Nat.add_sub_cancel] at *
      rw [Nat.mul_succ]
      omega

/-- C4 counterexample: the claim's "the returned block's character count
never exceeds the configured maximum" is false: with maximum 5, the corpus
`["a"]` and query `"a"`, the single bulleted line (the document content with
its 4-character prefix, 5 characters) fits the budget, but the returned
block carries the 18-character header and the blank-line suffix, 25
characters in total. -/
theorem get_context_length_counterexample :
    get_context_for_query "a" 5 [⟨"a", []⟩] =
      "RELEVANT CONTEXT:\nâ€¢ a\n\n" ∧
    5 < (get_context_for_query "a" 5 [⟨"a", []⟩]).length := by
  have h : get_context_for_query "a" 5 [⟨"a", []⟩] =
      "RELEVANT CONTEXT:\nâ€¢ a\n\n" := by
    simp only [get_context_for_query, search_query_a_one_doc]
    norm_num [gatherParts, bulletLine, joinSep,
      show ("â€¢ " ++ "a").length = 5 from rfl]
    decide
  rw [h]
  exact ⟨rfl, by decide⟩

/-- C4 amended: `get_context_for_query` considers only the top-3 search
matches; the sum of the lengths of the accumulated bulleted lines never
exceeds `max_context_length`, and accumulation stops before the first line
that would exceed it; on an empty corpus (or no matches) the result is the
empty string; a non-empty result is the header `"RELEVANT CONTEXT:\n"`, the
newline-joined accumulated lines, and a blank-line suffix — so the returned
block itself has at most `max_context_length + 22` characters (header 18,
at most 2 separating newlines, suffix 2), not `max_context_length`. -/
theorem get_context_budget (q : String) (maxLen : Nat)
    (docs : List Document) :
    ((gatherParts maxLen (search q 3 (1/10) docs) 0).map String.length).sum ≤
      maxLen ∧
    (docs = [] → get_context_for_query q maxLen docs = "") ∧
    (search q 3 (1/10) docs = [] → get_context_for_query q maxLen docs = "") ∧
    (get_context_for_query q maxLen docs = "" ∨
      (get_context_for_query q maxLen docs =
        "RELEVANT CONTEXT:\n" ++
          joinSep "\n" (gatherParts maxLen (search q 3 (1/10) docs) 0) ++
          "\n\n" ∧
       (get_context_for_query q maxLen docs).length ≤ maxLen + 22)) := by
  refine ⟨gatherParts_sum_le maxLen _, ?_, ?_, ?_⟩
  · intro hd
    subst hd
    have hsearch : search q 3 (1/10) ([] : List Document) = [] := by
      by_cases hb : pyBlank q = true <;>
        simp [search, hb, scoredCandidates, sortDesc]
    simp only [get_context_for_query]
    rw [hsearch]
    simp
  · intro hsearch
    simp only [get_context_for_query]
    rw [hsearch]
    simp
  · by_cases hrel : search q 3 (1/10) docs = []
    · left
      simp only [get_context_for_query]
      rw [hrel]
      simp
    · by_cases hparts : gatherParts maxLen (search q 3 (1/10) docs) 0 = []
      · left
        simp only [get_context_for_query]
        rw [if_neg hrel, hparts]
        simp
      · have heq : get_context_for_query q maxLen docs =
            "RELEVANT CONTEXT:\n" ++
              joinSep "\n" (gatherParts maxLen (search q 3 (1/10) docs) 0) ++
              "\n\n" := by
          simp only [get_context_for_query]
          rw [if_neg hrel, if_neg hparts]
        right
        refine ⟨heq, ?_⟩
        rw [heq]
        have hsum := gatherParts_sum_le maxLen (search q 3 (1/10) docs)
        have hjoin := length_joinSep "\n"
          (gatherParts maxLen (search q 3 (1/10) docs) 0)
        have hn : (gatherParts maxLen (search q 3 (1/10) docs) 0).length ≤ 3 := by
          have h1 := gatherParts_length_le maxLen (search q 3 (1/10) docs) 0
          have h2 : (search q 3 (1/10) docs).length ≤ 3 :=
            search_length_le q 3 (1/10) docs
          omega
        rw [String.length_append, String.length_append]
        rw [show ("\n" : String).length = 1 from rfl, one_mul] at hjoin
        rw [show ("RELEVANT CONTEXT:\n" : String).length = 18 from rfl,
            show ("\n\n" : String).length = 2 from rfl]
        omega

/-- Witness for C4 (amended) at a concrete input: the empty corpus yields
the empty string, and the accumulated line lengths for a one-document corpus
stay within the budget. -/
theorem get_context_budget_witness :
    get_context_for_query "a" 7 ([] : List Document) = "" ∧
    ((gatherParts 7 (search "a" 3 (1/10) [⟨"a", []⟩]) 0).map
      String.length).sum ≤ 7 :=
  ⟨(get_context_budget "a" 7 []).2.1 rfl,
   (get_context_budget "a" 7 [⟨"a", []⟩]).1⟩

/-! ## C7: the add operation -/

/-- C7 counterexample: the claim's "fails if and only if content is the
empty string" is false: `add_document` has no failure path at all, and with
empty content it still returns an id and stores a document. -/
theorem add_document_empty_content_succeeds :
    add_document (fun _ => "d41d8cd9") [] "" [] 0 =
      ("doc_d41d8cd9_0", [⟨"", []⟩]) := rfl

/-- C7 amended: `add_document` never fails — for every content, the empty
string included, it returns the generated document id and appends exactly
one new document; it never deduplicates: adding the same content twice
yields two stored documents. -/
theorem add_document_total (h : String → String) (docs : List Document)
    (content : String) (metadata : List (String × String)) (t t' : Nat) :
    (add_document h docs content metadata t).1 = generate_id h content t ∧
    (add_document h docs content metadata t).2 =
      docs ++ [⟨content, metadata⟩] ∧
    (add_document h (add_document h docs content metadata t).2 content
        metadata t').2 =
      docs ++ [⟨content, metadata⟩] ++ [⟨content, metadata⟩] :=
  ⟨rfl, rfl, rfl⟩

/-! ## C6: knowledge-base initialization -/

theorem processDocs_acc :
    ∀ (ds : List DocData) (acc : List Document),
      ∃ t, (processDocs ds acc).1 = acc ++ t := by
  intro ds
  induction ds with
  | nil => intro acc; exact ⟨[], (List.append_nil acc).symm⟩
  | cons d ds ih =>
    intro acc
    cases hc : d.content with
    | some c =>
      obtain ⟨t, ht⟩ := ih (acc ++ [⟨c, d.metadata⟩])
      refine ⟨⟨c, d.metadata⟩ :: t, ?_⟩
      rw [processDocs, hc]
      simp only at ht
      rw [ht, List.append_assoc]
      rfl
    | none => exact ⟨[], by rw [processDocs, hc]; simp⟩

/-- C6 counterexample: a supplied, existing, loadable knowledge-base file
whose `documents` array is empty makes the store start with zero documents —
the claim's "in every case the store's document set is non-empty immediately
after initialization" is false. -/
theorem rag_init_empty_counterexample :
    rag_init (some "kb.json") (fun _ => some (.ok [])) = [] := rfl

/-- C6 amended: with no path, an empty (falsy) path, a missing file, or a
read/parse failure, the seed documents (a non-empty fixed set) are
installed; a loadable file installs its documents in order — appending the
seed set after the partially loaded prefix if a record mid-file raises — so
the store starts empty exactly when the supplied file loads successfully
with an empty document list. -/
theorem rag_init_spec (path : Option String)
    (fs : String → Option (Except Unit (List DocData))) :
    default_documents ≠ [] ∧
    (path = none → rag_init path fs = default_documents) ∧
    (∀ p, path = some p → p ≠ "" → fs p = none →
      rag_init path fs = default_documents) ∧
    (∀ p, path = some p → p ≠ "" → fs p = some (.error ()) →
      rag_init path fs = default_documents) ∧
    (∀ p ds, path = some p → p ≠ "" → fs p = some (.ok ds) →
      rag_init path fs = (processDocs ds []).1 ++
        (if (processDocs ds []).2 then [] else default_documents)) ∧
    (rag_init path fs = [] ↔
      ∃ p, path = some p ∧ p ≠ "" ∧ fs p = some (.ok ([] : List DocData))) := by
  refine ⟨by simp [default_documents], ?_, ?_, ?_, ?_, ?_⟩
  · intro hp; subst hp; rfl
  · intro p hp hne hfs
    subst hp
    simp [rag_init, hne, hfs]
  · intro p hp hne hfs
    subst hp
    simp [rag_init, hne, hfs, load_knowledge_base]
  · intro p ds hp hne hfs
    subst hp
    simp only [rag_init, if_neg hne, hfs, load_knowledge_base]
    cases hpr : processDocs ds [] with
    | mk docs ok => cases ok <;> simp
  · constructor
    · intro hempty
      cases path with
      | none =>
        rw [show rag_init none fs = default_documents from rfl] at hempty
        exact absurd hempty (by simp [default_documents])
      | some p =>
        by_cases hne : p = ""
        · subst hne
          rw [show rag_init (some "") fs = default_documents from rfl]
            at hempty
          exact absurd hempty (by simp [default_documents])
        · cases hfs : fs p with
          | none =>
            rw [show rag_init (some p) fs =
                  (match fs p with
                   | none => default_documents
                   | some parsed => load_knowledge_base parsed) from
                by simp [rag_init, hne], hfs] at hempty
            exact absurd hempty (by simp [default_documents])
          | some parsed =>
            rw [show rag_init (some p) fs =
                  (match fs p with
                   | none => default_documents
                   | some parsed => load_knowledge_base parsed) from
                by simp [rag_init, hne], hfs] at hempty
            cases parsed with
            | error e =>
              cases e
              exact absurd hempty (by simp [load_knowledge_base,
                default_documents])
            | ok ds =>
              refine ⟨p, rfl, hne, ?_⟩
              simp only [load_knowledge_base] at hempty
              cases ds with
              | nil => exact hfs
              | cons d ds' =>
                exfalso
                cases hc : d.content with
                | some c =>
                  obtain ⟨t, ht⟩ := processDocs_acc ds' [⟨c, d.metadata⟩]
                  rw [show processDocs (d :: ds') [] =
                        processDocs ds' [⟨c, d.metadata⟩] from
                      by rw [processDocs, hc]; rfl] at hempty
                  cases hpr : processDocs ds' [⟨c, d.metadata⟩] with
                  | mk docs ok =>
                    rw [hpr] at hempty ht
                    cases ok with
                    | true =>
                      have hd : docs = [] := by simpa using hempty
                      rw [hd] at ht
                      simp at ht
                    | false =>
                      have hd : docs ++ default_documents = [] := by
                        simpa using hempty
                      rcases List.append_eq_nil.mp hd with ⟨h1, h2⟩
                      exact absurd h2 (by simp [default_documents])
                | none =>
                  rw [show processDocs (d :: ds') [] = ([], false) from
                      by rw [processDocs, hc]] at hempty
                  simp at hempty
                  exact absurd hempty (by simp [default_documents])
    · rintro ⟨p, hp, hne, hfs⟩
      subst hp
      simp [rag_init, hne, hfs, load_knowledge_base, processDocs]

/-- Witness for C6 (amended) at concrete inputs: a read failure installs the
seed documents, and a loadable two-record file installs those two
documents. -/
theorem rag_init_spec_witness :
    rag_init (some "kb.json") (fun _ => some (.error ())) =
      default_documents ∧
    rag_init (some "kb.json")
        (fun _ => some (.ok [⟨some "d1", []⟩, ⟨some "d2", [("k", "v")]⟩])) =
      [⟨"d1", []⟩, ⟨"d2", [("k", "v")]⟩] := by
  constructor
  · exact (rag_init_spec (some "kb.json")
      (fun _ => some (.error ()))).2.2.2.1 "kb.json" rfl (by decide) rfl
  · have h := (rag_init_spec (some "kb.json")
      (fun _ => some (.ok [⟨some "d1", []⟩, ⟨some "d2", [("k", "v")]⟩]))
      ).2.2.2.2.1 "kb.json" [⟨some "d1", []⟩, ⟨some "d2", [("k", "v")]⟩]
      rfl (by decide) rfl
    rw [h]
    rfl

/-! ## Session Store helper lemmas -/

theorem assocGet_set_self {α : Type} :
    ∀ (l : List (String × α)) (k : String) (v : α),
      assocGet (assocSet l k v) k = some v := by
  intro l
  induction l with
  | nil => intro k v; simp [assocSet, assocGet]
  | cons kv rest ih =>
    intro k v
    obtain ⟨k', v'⟩ := kv
    by_cases h : k' = k
    · simp [assocSet, h, assocGet]
    · simp [assocSet, h, assocGet, ih]

theorem assocGet_set_ne {α : Type} :
    ∀ (l : List (String × α)) (k k' : String) (v : α), k' ≠ k →
      assocGet (assocSet l k v) k' = assocGet l k' := by
  intro l
  induction l with
  | nil =>
    intro k k' v h
    simp [assocSet, assocGet, Ne.symm h]
  | cons kv rest ih =>
    intro k k' v h
    obtain ⟨k₀, v₀⟩ := kv
    by_cases h0 : k₀ = k
    · subst h0
      simp [assocSet, assocGet, Ne.symm h]
    · simp only [assocSet, if_neg h0, assocGet]
      by_cases h1 : k₀ = k' <;> simp [h1, ih k k' v h]

theorem assocGet_del_self {α : Type} :
    ∀ (l : List (String × α)) (k : String),
      assocGet (assocDel l k) k = none := by
  intro l
  induction l with
  | nil => intro k; rfl
  | cons kv rest ih =>
    intro k
    obtain ⟨k', v'⟩ := kv
    have ihk := ih k
    by_cases h : k' = k
    · simp only [assocDel, List.filter_cons] at ihk ⊢
      simp only [ne_eq, decide_not] at ihk ⊢
      simp [h, ihk]
    · simp only [assocDel, List.filter_cons] at ihk ⊢
      simp only [ne_eq, decide_not] at ihk ⊢
      simp [h, assocGet, ihk]

theorem assocGet_del_ne {α : Type} :
    ∀ (l : List (String × α)) (k k' : String), k' ≠ k →
      assocGet (assocDel l k) k' = assocGet l k' := by
  intro l
  induction l with
  | nil => intro k k' h; rfl
  | cons kv rest ih =>
    intro k k' h
    obtain ⟨k₀, v₀⟩ := kv
    have ihk := ih k k' h
    by_cases h0 : k₀ = k
    · subst h0
      simp only [assocDel, List.filter_cons] at ihk ⊢
      simp only [ne_eq, decide_not] at ihk ⊢
      simp [assocGet, Ne.symm h, ihk]
    · simp only [assocDel, List.filter_cons] at ihk ⊢
      simp only [ne_eq, decide_not] at ihk ⊢
      by_cases h1 : k₀ = k' <;> simp [assocGet, h0, h1, h, ihk]

theorem historyD_add_self (st : ConvState) (sid r c : String)
    (ts : Option Nat) (now : Nat) :
    historyD (add_message st sid r c ts now) sid =
      if validRole r then historyD st sid ++ [⟨r, c, ts.getD now⟩]
      else historyD st sid := by
  unfold add_message ensureSession historyD
  cases hg : assocGet st.conversations sid with
  | some msgs =>
    by_cases hr : validRole r = true
    · simp [hg, hr, assocGet_set_self]
    · simp [hg, hr]
  | none =>
    by_cases hr : validRole r = true
    · simp [hg, hr, assocGet_set_self]
    · simp [hg, hr, assocGet_set_self]

theorem historyD_add_ne (st : ConvState) (sid sid' r c : String)
    (ts : Option Nat) (now : Nat) (h : sid' ≠ sid) :
    historyD (add_message st sid r c ts now) sid' = historyD st sid' := by
  unfold add_message ensureSession historyD
  cases hg : assocGet st.conversations sid with
  | some msgs =>
    by_cases hr : validRole r = true <;>
      simp [hg, hr, assocGet_set_ne _ _ _ _ h]
  | none =>
    by_cases hr : validRole r = true <;>
      simp [hg, hr, assocGet_set_ne _ _ _ _ h]

theorem historyD_clear_self (st : ConvState) (sid : String) :
    historyD (clear_session st sid).2 sid = [] := by
  unfold clear_session historyD
  cases hg : assocGet st.conversations sid with
  | some msgs => simp [assocGet_del_self]
  | none => simp [hg]

theorem historyD_clear_ne (st : ConvState) (sid sid' : String)
    (h : sid' ≠ sid) :
    historyD (clear_session st sid).2 sid' = historyD st sid' := by
  unfold clear_session historyD
  cases hg : assocGet st.conversations sid with
  | some msgs => simp [assocGet_del_ne _ _ _ h]
  | none => simp

theorem historyD_applyOp (st : ConvState) (o : ConvOp × Nat) (sid : String) :
    historyD (applyOp st o) sid = stepHistory (historyD st sid) sid o := by
  obtain ⟨op, now⟩ := o
  cases op with
  | add s r c ts =>
    by_cases hs : s = sid
    · subst hs
      rw [applyOp, stepHistory, historyD_add_self]
      by_cases hr : validRole r = true <;> simp [hr]
    · rw [applyOp, stepHistory,
        historyD_add_ne st s sid r c ts now (Ne.symm hs)]
      simp [hs]
  | clear s =>
    by_cases hs : s = sid
    · subst hs
      rw [applyOp, stepHistory, historyD_clear_self]
      simp
    · rw [applyOp, stepHistory, historyD_clear_ne st s sid (Ne.symm hs)]
      simp [hs]

theorem historyD_runOps :
    ∀ (ops : List (ConvOp × Nat)) (st : ConvState) (sid : String),
      historyD (runOps st ops) sid =
        ops.foldl (fun h o => stepHistory h sid o) (historyD st sid) := by
  intro ops
  induction ops with
  | nil => intro st sid; rfl
  | cons o os ih =>
    intro st sid
    rw [runOps, ih, List.foldl_cons, historyD_applyOp]

theorem countInv_applyOp {st : ConvState} (h : countInv st)
    (o : ConvOp × Nat) : countInv (applyOp st o) := by
  obtain ⟨op, now⟩ := o
  cases op with
  | add s r c ts =>
    intro sid
    by_cases hs : s = sid
    · subst hs
      rw [applyOp]
      unfold add_message ensureSession
      cases hg : assocGet st.conversations s with
      | some msgs =>
        by_cases hr : validRole r = true
        · have hmeta := h s
          rw [hg] at hmeta
          cases hm : assocGet st.session_metadata s with
          | none => rw [hm] at hmeta; simp at hmeta
          | some m =>
            rw [hm] at hmeta
            simp at hmeta
            simp [hg, hr, hm, assocGet_set_self, hmeta]
        · rw [if_neg hr]
          exact h s
      | none =>
        by_cases hr : validRole r = true
        · simp [hg, hr, assocGet_set_self]
        · simp [hg, hr, assocGet_set_self]
    · have hne : sid ≠ s := fun hh => hs hh.symm
      rw [applyOp]
      unfold add_message ensureSession
      cases hg : assocGet st.conversations s with
      | some msgs =>
        by_cases hr : validRole r = true
        · simp only [hg, hr, if_pos]
          simp [assocGet_set_ne _ _ _ _ hne]
          exact h sid
        · simp only [hg, hr]
          exact h sid
      | none =>
        by_cases hr : validRole r = true
        · simp only [hg, hr, if_pos]
          simp [assocGet_set_ne _ _ _ _ hne, assocGet_set_self]
          exact h sid
        · simp only [hg, hr]
          simp [assocGet_set_ne _ _ _ _ hne]
          exact h sid
  | clear s =>
    intro sid
    rw [applyOp]
    unfold clear_session
    cases hg : assocGet st.conversations s with
    | some msgs =>
      by_cases hs : s = sid
      · subst hs
        simp [assocGet_del_self]
      · have hne : sid ≠ s := fun hh => hs hh.symm
        simp [assocGet_del_ne _ _ _ hne]
        exact h sid
    | none =>
      simp only [hg]
      exact h sid

theorem countInv_runOps :
    ∀ (ops : List (ConvOp × Nat)) (st : ConvState),
      countInv st → countInv (runOps st ops) := by
  intro ops
  induction ops with
  | nil => intro st h; exact h
  | cons o os ih => intro st h; exact ih _ (countInv_applyOp h o)

theorem countInv_empty : countInv emptyConvState := by
  intro sid; rfl

theorem messageCountD_eq {st : ConvState} (h : countInv st) (sid : String) :
    messageCountD st sid = (historyD st sid).length := by
  have hinv := h sid
  unfold messageCountD historyD
  cases hm : assocGet st.session_metadata sid <;>
    cases hg : assocGet st.conversations sid <;>
      rw [hm, hg] at hinv <;> simp_all

theorem lastActivityD_add_ne (st : ConvState) (sid sid' r c : String)
    (ts : Option Nat) (now : Nat) (h : sid' ≠ sid) :
    lastActivityD (add_message st sid r c ts now) sid' =
      lastActivityD st sid' := by
  unfold add_message ensureSession lastActivityD
  cases hg : assocGet st.conversations sid with
  | some msgs =>
    by_cases hr : validRole r = true <;>
      simp [hg, hr, assocGet_set_ne _ _ _ _ h]
  | none =>
    by_cases hr : validRole r = true <;>
      simp [hg, hr, assocGet_set_ne _ _ _ _ h]

theorem lastActivityD_add_self (st : ConvState) (sid r c : String)
    (ts : Option Nat) (now : Nat) :
    lastActivityD (add_message st sid r c ts now) sid = now ∨
    lastActivityD (add_message st sid r c ts now) sid =
      lastActivityD st sid := by
  unfold add_message ensureSession lastActivityD
  cases hg : assocGet st.conversations sid with
  | some msgs =>
    by_cases hr : validRole r = true
    · left; simp [hr, assocGet_set_self]
    · right; rw [if_neg hr]
  | none =>
    by_cases hr : validRole r = true
    · left; simp [hr, assocGet_set_self]
    · left
      rw [if_neg hr]
      simp [assocGet_set_self]

theorem lastActivityD_add_self_le {st : ConvState} {sid : String} {b : Nat}
    (hub : lastActivityD st sid ≤ b) {now : Nat} (hbn : b ≤ now)
    (r c : String) (ts : Option Nat) :
    lastActivityD st sid ≤ lastActivityD (add_message st sid r c ts now) sid ∧
    lastActivityD (add_message st sid r c ts now) sid ≤ now := by
  rcases lastActivityD_add_self st sid r c ts now with he | he <;> rw [he]
  · exact ⟨le_trans hub hbn, le_refl now⟩
  · exact ⟨le_refl _, le_trans hub hbn⟩

theorem lastActivityD_clear_le (st : ConvState) (sid sid' : String) :
    lastActivityD (clear_session st sid).2 sid' ≤ lastActivityD st sid' := by
  unfold clear_session lastActivityD
  cases hg : assocGet st.conversations sid with
  | some msgs =>
    by_cases hs : sid' = sid
    · subst hs
      simp [assocGet_del_self]
    · simp [assocGet_del_ne _ _ _ hs]
  | none => simp

theorem ubLA_applyOp {st : ConvState} {b : Nat} (h : ubLA st b)
    {o : ConvOp × Nat} (hbn : b ≤ o.2) : ubLA (applyOp st o) o.2 := by
  obtain ⟨op, now⟩ := o
  simp only at hbn
  intro sid
  cases op with
  | add s r c ts =>
    by_cases hs : s = sid
    · subst hs
      exact (lastActivityD_add_self_le (h s) hbn r c ts).2
    · rw [applyOp, lastActivityD_add_ne st s sid r c ts now (Ne.symm hs)]
      exact le_trans (h sid) hbn
  | clear s =>
    calc lastActivityD (applyOp st (ConvOp.clear s, now)) sid
        ≤ lastActivityD st sid := lastActivityD_clear_le st s sid
      _ ≤ b := h sid
      _ ≤ now := hbn

theorem lastActivityD_mono_add {st : ConvState} {b : Nat} (h : ubLA st b)
    {now : Nat} (hbn : b ≤ now) (s r c : String) (ts : Option Nat)
    (sid : String) :
    lastActivityD st sid ≤ lastActivityD (add_message st s r c ts now) sid := by
  by_cases hs : s = sid
  · subst hs
    exact (lastActivityD_add_self_le (h s) hbn r c ts).1
  · rw [lastActivityD_add_ne st s sid r c ts now (Ne.symm hs)]

theorem lastActivity_mono_aux :
    ∀ (ops : List (ConvOp × Nat)) (st : ConvState) (b : Nat),
      ubLA st b → sortedFrom b ops = true →
      ∀ i sid, ((ops.get? i).any (fun o => isAddOp o.1)) = true →
        lastActivityD (runOps st (ops.take i)) sid ≤
        lastActivityD (runOps st (ops.take (i + 1))) sid := by
  intro ops
  induction ops with
  | nil =>
    intro st b _ _ i sid hi
    simp [List.get?] at hi
  | cons o os ih =>
    intro st b hub hsort i sid hi
    rw [sortedFrom, Bool.and_eq_true] at hsort
    obtain ⟨hb, hrest⟩ := hsort
    have hble : b ≤ o.2 := of_decide_eq_true hb
    cases i with
    | zero =>
      simp only [List.take_zero, List.take_succ_cons, List.take_zero, runOps]
      obtain ⟨op, now⟩ := o
      cases op with
      | add s r c ts =>
        exact lastActivityD_mono_add hub hble s r c ts sid
      | clear s => simp [List.get?, isAddOp] at hi
    | succ i =>
      simp only [List.take_succ_cons, runOps]
      refine ih (applyOp st o) o.2 (ubLA_applyOp hub hble) hrest i sid ?_
      simpa [List.get?] using hi

/-! ## C1, C8, C9: the Session Store claims -/

/-- C1: starting from a fresh Session Store, after any sequence of
`add_message` and `clear_session` operations executed under a non-decreasing
wall clock, every session's stored `message_count` equals the length of its
stored message list, the history of every session is exactly the
successfully appended messages in append order (since the last clear), and
`last_activity` never decreases across an append step. -/
theorem session_store_invariants (ops : List (ConvOp × Nat))
    (hclock : sortedFrom 0 ops = true) :
    (∀ sid, messageCountD (runOps emptyConvState ops) sid =
            (historyD (runOps emptyConvState ops) sid).length) ∧
    (∀ sid, historyD (runOps emptyConvState ops) sid =
            expectedHistory ops sid) ∧
    (∀ i sid, ((ops.get? i).any (fun o => isAddOp o.1)) = true →
      lastActivityD (runOps emptyConvState (ops.take i)) sid ≤
      lastActivityD (runOps emptyConvState (ops.take (i + 1))) sid) := by
  refine ⟨?_, ?_, ?_⟩
  · intro sid
    exact messageCountD_eq (countInv_runOps ops emptyConvState countInv_empty)
      sid
  · intro sid
    rw [historyD_runOps]
    rfl
  · intro i sid hi
    exact lastActivity_mono_aux ops emptyConvState 0
      (fun _ => Nat.le_refl 0) hclock i sid hi

/-- Witness for C1 at a concrete operation sequence (two appends to one
session, a clear of another, a skipped invalid-role append, and a final
append), applied through the theorem with the clock hypothesis discharged. -/
theorem session_store_invariants_witness :
    messageCountD (runOps emptyConvState
      [(ConvOp.add "s" "user" "hi" none, 1),
       (ConvOp.add "s" "assistant" "yo" (some 9), 2),
       (ConvOp.clear "t", 3),
       (ConvOp.add "s" "robot" "bad" none, 4),
       (ConvOp.add "s" "user" "x" none, 5)]) "s" =
      (historyD (runOps emptyConvState
        [(ConvOp.add "s" "user" "hi" none, 1),
         (ConvOp.add "s" "assistant" "yo" (some 9), 2),
         (ConvOp.clear "t", 3),
         (ConvOp.add "s" "robot" "bad" none, 4),
         (ConvOp.add "s" "user" "x" none, 5)]) "s").length ∧
    historyD (runOps emptyConvState
      [(ConvOp.add "s" "user" "hi" none, 1),
       (ConvOp.add "s" "assistant" "yo" (some 9), 2),
       (ConvOp.clear "t", 3),
       (ConvOp.add "s" "robot" "bad" none, 4),
       (ConvOp.add "s" "user" "x" none, 5)]) "s" =
      expectedHistory
        [(ConvOp.add "s" "user" "hi" none, 1),
         (ConvOp.add "s" "assistant" "yo" (some 9), 2),
         (ConvOp.clear "t", 3),
         (ConvOp.add "s" "robot" "bad" none, 4),
         (ConvOp.add "s" "user" "x" none, 5)] "s" :=
  ⟨(session_store_invariants _ (by decide)).1 "s",
   (session_store_invariants _ (by decide)).2.1 "s"⟩

theorem clear_session_get_none (st : ConvState) (sid : String) :
    assocGet (clear_session st sid).2.conversations sid = none := by
  unfold clear_session
  cases hg : assocGet st.conversations sid with
  | some msgs => simp [assocGet_del_self]
  | none => simp [hg]

/-- C9 counterexample: the claim's "for every supplied limit value,
get_history returns the most recent `limit` messages" is false at
`limit = 0`: the most recent 0 messages are `[]`, but `if limit:` is falsy
for 0 in Python, so the full history is returned. -/
theorem get_history_limit_zero_counterexample :
    get_conversation_history
      ⟨[("s", [⟨"user", "hi", 0⟩])], [("s", ⟨0, 0, 1⟩)]⟩ "s" (some 0) ≠
      [] := by decide

/-- C9 amended: for every positive supplied limit, `get_conversation_history`
returns the most recent `limit` messages of the stored history (its suffix,
hence in chronological order); a limit of 0 is falsy in Python and returns
the full history, as does no limit; an unknown or already-cleared session
yields `[]` rather than an error. -/
theorem get_history_contract (st : ConvState) (sid : String) :
    (assocGet st.conversations sid = none →
      ∀ limit, get_conversation_history st sid limit = []) ∧
    (get_conversation_history st sid none = historyD st sid) ∧
    (∀ l : Nat, 0 < l → get_conversation_history st sid (some l) =
      (historyD st sid).drop ((historyD st sid).length - l)) ∧
    (get_conversation_history st sid (some 0) = historyD st sid) ∧
    (∀ limit,
      get_conversation_history (clear_session st sid).2 sid limit = []) := by
  refine ⟨?_, ?_, ?_, ?_, ?_⟩
  · intro hg limit
    simp [get_conversation_history, hg]
  · unfold get_conversation_history historyD
    cases hg : assocGet st.conversations sid <;> simp
  · intro l hl
    unfold get_conversation_history historyD
    cases hg : assocGet st.conversations sid with
    | none => simp
    | some messages => simp [Nat.pos_iff_ne_zero.mp hl]
  · unfold get_conversation_history historyD
    cases hg : assocGet st.conversations sid <;> simp
  · intro limit
    simp [get_conversation_history, clear_session_get_none st sid]

/-- Witness for C9 (amended) at a concrete store: limit 1 returns the most
recent message of a two-message session. -/
theorem get_history_contract_witness :
    get_conversation_history
      ⟨[("s", [⟨"user", "a", 0⟩, ⟨"assistant", "b", 1⟩])], [("s", ⟨0, 1, 2⟩)]⟩
      "s" (some 1) = [⟨"assistant", "b", 1⟩] := by
  have h := (get_history_contract
    ⟨[("s", [⟨"user", "a", 0⟩, ⟨"assistant", "b", 1⟩])], [("s", ⟨0, 1, 2⟩)]⟩
    "s").2.2.1 1 (by decide)
  rw [h]
  decide

/-- C8: for every `/ask` request whose content is empty or whitespace-only,
the handler returns a 400 client error, the Session Store state is
unchanged, and the Completion Gateway is never invoked — the error is raised
before any downstream call. -/
theorem ask_blank_rejected (st : ConvState) (content : String)
    (session_id : Option String) (fresh_session_id : String)
    (gateway : String → List GeminiTurn → String) (now : Nat)
    (h : pyBlank content = true) :
    ask_gemini st content session_id fresh_session_id gateway now =
      ⟨.error 400, st, 0⟩ := by
  unfold ask_gemini
  rw [if_pos h]

/-- Witness for C8 at a concrete whitespace-only request. -/
theorem ask_blank_rejected_witness :
    ask_gemini emptyConvState " \t" (some "sess") "fresh"
      (fun _ _ => "reply") 7 = ⟨.error 400, emptyConvState, 0⟩ :=
  ask_blank_rejected emptyConvState " \t" (some "sess") "fresh"
    (fun _ _ => "reply") 7 (by decide)

/-! ## C5 and C10: intent extraction degradation -/

theorem mkTaskIntentResponse_time {hti tn dd pr nc : PyVal} {t : Nat}
    {r : TaskIntentResponse}
    (h : mkTaskIntentResponse hti tn dd pr nc t = .ok r) :
    r.processing_time = t := by
  unfold mkTaskIntentResponse at h
  split at h
  · split at h
    · exact congrArg TaskIntentResponse.processing_time
        (Except.ok.inj h).symm ▸ rfl
    · exact absurd h (by simp)
  · exact absurd h (by simp)

theorem analyzeAttempt_time {o : GenOutcome} {t : Nat}
    {r : TaskIntentResponse} (h : analyzeAttempt o t = .ok r) :
    r.processing_time = t := by
  cases o with
  | genFail => exact absurd h (by simp [analyzeAttempt])
  | parseFail =>
    rw [analyzeAttempt] at h
    rw [← Except.ok.inj h]
    rfl
  | parsed j =>
    cases j with
    | pyDict d => exact mkTaskIntentResponse_time h
    | pyNull => exact absurd h (by simp [analyzeAttempt])
    | pyBool b => exact absurd h (by simp [analyzeAttempt])
    | pyInt n => exact absurd h (by simp [analyzeAttempt])
    | pyStr s => exact absurd h (by simp [analyzeAttempt])
    | pyList xs => exact absurd h (by simp [analyzeAttempt])

/-- C5: assuming the model handle is initialized, `analyze_task_intent`
returns the fully neutral result whenever generation fails, the response
fails to parse as JSON, or the parsed value has the wrong shape (any
exception escaping the inner handler, including a failed
`TaskIntentResponse` validation); in every case it returns a
`TaskIntentResponse` carrying the elapsed processing time, and — the
function being total on every outcome — never raises past this boundary. -/
theorem analyze_task_intent_degrades (o : GenOutcome) (t : Nat) :
    ((o = .genFail ∨ o = .parseFail ∨ analyzeAttempt o t = .error ()) →
      analyze_task_intent o t = neutralIntent t) ∧
    (analyze_task_intent o t).processing_time = t := by
  constructor
  · intro h
    rcases h with rfl | rfl | he
    · rfl
    · rfl
    · unfold analyze_task_intent
      rw [he]
  · unfold analyze_task_intent
    cases ha : analyzeAttempt o t with
    | error e => rfl
    | ok r => exact analyzeAttempt_time ha

/-- Witness for C5 at concrete outcomes: a JSON parse failure yields the
neutral result with the elapsed time, and a generation failure does too. -/
theorem analyze_task_intent_degrades_witness :
    analyze_task_intent .parseFail 7 = neutralIntent 7 ∧
    analyze_task_intent .genFail 3 = neutralIntent 3 ∧
    (analyze_task_intent .parseFail 7).processing_time = 7 :=
  ⟨(analyze_task_intent_degrades .parseFail 7).1 (Or.inr (Or.inl rfl)),
   (analyze_task_intent_degrades .genFail 3).1 (Or.inl rfl),
   (analyze_task_intent_degrades .parseFail 7).2⟩

/-- C10: if the external model returns valid JSON whose `hasTaskIntent` is
`true` but whose `priority` is a string outside `{low, medium, high}`, the
`TaskIntentResponse` validation fails, the exception escapes the inner
parse handler into the generic failure branch, and the fully neutral result
is returned (no field of the parsed JSON survives). -/
theorem invalid_priority_neutral (d : List (String × PyVal)) (t : Nat)
    (s : String)
    (hh : pyGet d "hasTaskIntent" (.pyBool false) = .pyBool true)
    (hp : pyGet d "priority" .pyNull = .pyStr s)
    (hs : s ≠ "low" ∧ s ≠ "medium" ∧ s ≠ "high") :
    analyze_task_intent (.parsed (.pyDict d)) t = neutralIntent t := by
  have ha : analyzeAttempt (.parsed (.pyDict d)) t =
      mkTaskIntentResponse (pyGet d "hasTaskIntent" (.pyBool false))
        (pyGet d "taskName" .pyNull) (pyGet d "dueDate" .pyNull)
        (pyGet d "priority" .pyNull)
        (pyGet d "needsClarity" (.pyBool false)) t := rfl
  unfold analyze_task_intent
  rw [ha, hh, hp]
  unfold mkTaskIntentResponse
  have hpr : validPriority (some s) = false := by
    simp [validPriority, hs.1, hs.2.1, hs.2.2]
  cases htn : pyToOptStr (pyGet d "taskName" PyVal.pyNull) with
  | error e => cases e; rfl
  | ok tn' =>
    cases hdd : pyToOptStr (pyGet d "dueDate" PyVal.pyNull) with
    | error e => cases e; rfl
    | ok dd' =>
      cases hnc : pyToBool (pyGet d "needsClarity" (PyVal.pyBool false)) with
      | error e => cases e; simp [pyToBool, pyToOptStr, hpr]
      | ok nc' => simp [pyToBool, pyToOptStr, hpr]

/-- Witness for C10 at a concrete parsed JSON object with
`hasTaskIntent = true`, a task name, and `priority = "urgent"`. -/
theorem invalid_priority_neutral_witness :
    analyze_task_intent
      (.parsed (.pyDict
        [("hasTaskIntent", .pyBool true), ("taskName", .pyStr "call mom"),
         ("priority", .pyStr "urgent")])) 5 = neutralIntent 5 :=
  invalid_priority_neutral
    [("hasTaskIntent", .pyBool true), ("taskName", .pyStr "call mom"),
     ("priority", .pyStr "urgent")] 5 "urgent" rfl rfl
    (by refine ⟨?_, ?_, ?_⟩ <;> decide)

end Swiftly
